import Mathlib

/-!
Verification of the safety-law-tracker repository's query surface and
classification model.

The main embedded component is the `filtered` computation of
`src/LawTracker.jsx`: a snapshot of items is filtered by a process
("stage") filter, an action filter and a trimmed search text, each item
is given a score `actScore * 1000 + recency`, and the list is sorted by
descending score with a stable sort (JavaScript `Array.prototype.sort`
is stable, and the comparator `b.score - a.score` is a consistent total
preorder, so the output is the unique stable descending arrangement;
`sortByScore` below realises exactly that arrangement).

Dates: the JavaScript code works on `YYYY-MM-DD` strings, converts them
to milliseconds and computes `floor(|a-b| / 86400000)`.  At day
granularity that is exactly the absolute day difference, so dates are
embedded as integer day numbers and `daysBetween` as the absolute
difference.

`safety-law-tracker-fixed.jsx` is embedded for the stage table, the
sample snapshot, the stage-filtered search and the per-stage counts.
The Python backend (scraper.py / api_server.py) is not part of the
sources; the classifier and the per-action statistics it provides are
modelled from the specification where a claim needs them, and each such
definition is marked `Modelled from the spec:`.
-/

/-- JavaScript `String.prototype.trim`, on the character list of a string:
drop whitespace from both ends. -/
def trimList (s : List Char) : List Char :=
  ((s.dropWhile Char.isWhitespace).reverse.dropWhile Char.isWhitespace).reverse

/-- Whether the first list is a prefix of the second (Boolean). -/
def isPrefixOfList : List Char → List Char → Bool
  | [], _ => true
  | _ :: _, [] => false
  | a :: as, b :: bs => a == b && isPrefixOfList as bs

/-- JavaScript `String.prototype.includes`: `q` occurs as a contiguous
substring of the second list. -/
def includesList (q : List Char) : List Char → Bool
  | [] => q.isEmpty
  | c :: rest => isPrefixOfList q (c :: rest) || includesList q rest

/-- JavaScript `Array.prototype.join(" ")` at the character-list level. -/
def joinSpace : List (List Char) → List Char
  | [] => []
  | [s] => s
  | s :: t :: rest => s ++ ' ' :: joinSpace (t :: rest)

/-- An item of the snapshot served to `LawTracker` (`/data/items.json`).
Field names follow the JavaScript code; optional fields model fields that
may be absent on the raw JSON object.  `updated_at` is a day number. -/
structure Item where
  title : Option String := none
  topic : Option String := none
  law_family : Option String := none
  summary_3 : List String := []
  target : List String := []
  tags : List String := []
  process : Option String := none
  action : Option String := none
  updated_at : Option Int := none
deriving DecidableEq

/-- The three query-surface inputs of `LawTracker`: search text `q`,
`process` (stage) filter and `action` filter.  The component's initial
("absent") state is `q = ""`, `process = "all"`, `action = "all"`. -/
structure QueryFilter where
  q : String
  process : String
  action : String
deriving DecidableEq

/-- The field array `[title, topic, law_family, ...summary_3, ...target,
...tags].filter(Boolean)` built by the search in `LawTracker.jsx`
(`filter(Boolean)` drops absent fields and empty strings). -/
def blobFields (it : Item) : List String :=
  (([it.title, it.topic, it.law_family].filterMap id)
      ++ it.summary_3 ++ it.target ++ it.tags).filter (fun s => s ≠ "")

/-- The searchable blob: the present text fields joined with `" "`. -/
def blobOf (it : Item) : List Char :=
  joinSpace ((blobFields it).map String.data)

/-- The filter predicate of `LawTracker.jsx` (`filtered`, lines 26-42):
process filter, action filter and trimmed-search conjunction, where a
filter value of `"all"` (resp. an empty trimmed search text) imposes no
constraint. -/
def passesFilter (f : QueryFilter) (it : Item) : Bool :=
  let qq := trimList f.q.data
  (f.process == "all" || it.process == some f.process) &&
  (f.action == "all" || it.action == some f.action) &&
  (qq.isEmpty || includesList qq (blobOf it))

/-- `const act = it.action || "WATCH"` followed by the urgency score
chain of `LawTracker.jsx` line 45 (`ACT_NOW` 4, `PREPARE` 3, `WATCH` 2,
anything else 1).  A missing action and the empty string are falsy in
JavaScript, hence default to `"WATCH"`. -/
def actScoreOf (it : Item) : Nat :=
  let act := match it.action with
    | none => "WATCH"
    | some a => if a == "" then "WATCH" else a
  if act == "ACT_NOW" then 4
  else if act == "PREPARE" then 3
  else if act == "WATCH" then 2
  else 1

/-- `daysBetween` of `LawTracker.jsx`: absolute whole-day difference of
two day numbers. -/
def daysBetween (a b : Int) : Nat := (a - b).natAbs

/-- `Math.min(100, daysBetween(updated, now))` with the code's
`it.updated_at || now` default for a missing date. -/
def cappedDays (now : Int) (it : Item) : Nat :=
  min 100 (daysBetween (it.updated_at.getD now) now)

/-- `recency = 100 - Math.min(100, daysBetween(updated, now))`. -/
def recencyOf (now : Int) (it : Item) : Nat :=
  100 - cappedDays now it

/-- `score = actScore * 1000 + recency`. -/
def scoreOf (now : Int) (it : Item) : Nat :=
  actScoreOf it * 1000 + recencyOf now it

/-- Insert an element in front of the first element whose score does not
exceed its own.  Together with `sortByScore` this realises the unique
stable descending arrangement produced by `.sort((a, b) => b.score - a.score)`. -/
def insertByScore (now : Int) (x : Item) : List Item → List Item
  | [] => [x]
  | y :: ys =>
    if scoreOf now y ≤ scoreOf now x then x :: y :: ys
    else y :: insertByScore now x ys

/-- Stable descending-by-score sort of a snapshot. -/
def sortByScore (now : Int) : List Item → List Item
  | [] => []
  | x :: xs => insertByScore now x (sortByScore now xs)

/-- The `filtered` memo of `LawTracker.jsx`: filter the snapshot, then
sort by descending score (filter → map-with-score → sort → unmap). -/
def query (items : List Item) (f : QueryFilter) (now : Int) : List Item :=
  sortByScore now (items.filter (passesFilter f))

/-- The snapshot state visible to the component: the item list (the
`items` React state) plus the last-refresh time. -/
structure Store where
  snapshot : List Item
  lastRefresh : Int
deriving DecidableEq

/-- Evaluating the query against the store, as explicit state passing:
the source computes `filtered` from the current `items` without calling
`setItems`, so the state component is returned unchanged. -/
def queryStore (st : Store) (f : QueryFilter) (now : Int) : List Item × Store :=
  (query st.snapshot f now, st)

/-- The search criterion as the specification words it (refinement
reference for the code's blob search): the text occurs as a substring of
the title, the law name (`law_family`), a summary entry, a target entry
or a tag. -/
def specFieldMatch (q : String) (it : Item) : Bool :=
  (match it.title with | some s => includesList q.data s.data | none => false) ||
  (match it.law_family with | some s => includesList q.data s.data | none => false) ||
  it.summary_3.any (fun s => includesList q.data s.data) ||
  it.target.any (fun s => includesList q.data s.data) ||
  it.tags.any (fun s => includesList q.data s.data)

/-- One entry of the `revisionStages` table of
`safety-law-tracker-fixed.jsx` (presentation-only fields dropped). -/
structure RevisionStage where
  id : String
  name : String
deriving DecidableEq

/-- The six lifecycle stages of `safety-law-tracker-fixed.jsx`, in their
declared order. -/
def revisionStages : List RevisionStage :=
  [⟨"consideration", "検討段階"⟩,
   ⟨"public_comment", "パブリックコメント"⟩,
   ⟨"deliberation", "国会審議中"⟩,
   ⟨"promulgated", "公布済み"⟩,
   ⟨"enforcement_scheduled", "施行予定"⟩,
   ⟨"enforced", "施行済み"⟩]

/-- A revision record of `safety-law-tracker-fixed.jsx`. -/
structure Revision where
  id : Nat
  lawName : String
  title : String
  stage : String
  description : String
  promulgationDate : Option String := none
  enforcementDate : Option String := none
  highlights : List String := []
deriving DecidableEq

/-- The `sampleRevisions` snapshot of `safety-law-tracker-fixed.jsx`
(URL fields dropped). -/
def sampleRevisions : List Revision :=
  [{ id := 0,
     lawName := "労働安全衛生規則",
     title := "AI・ロボット技術の進展に伴う安全規制の在り方検討",
     stage := "consideration",
     description := "労働政策審議会安全衛生分科会で、AI・協働ロボット等の新技術に対応した安全基準の検討を開始" },
   { id := 1,
     lawName := "労働安全衛生法及び作業環境測定法",
     title := "労働安全衛生法及び作業環境測定法の一部を改正する法律（令和7年法律第33号）",
     stage := "promulgated",
     promulgationDate := some "2025-05-14",
     enforcementDate := some "2026-04-01",
     description := "個人事業者等に対する安全衛生対策の推進、50人未満事業場でのストレスチェック義務化など",
     highlights := ["フリーランスへの安全衛生対策",
                    "50人未満事業場でのストレスチェック義務化",
                    "化学物質管理の強化"] },
   { id := 2,
     lawName := "労働安全衛生規則",
     title := "労働安全衛生規則の一部改正（熱中症対策の強化）",
     stage := "enforced",
     promulgationDate := some "2025-05-20",
     enforcementDate := some "2025-06-01",
     description := "職場における熱中症対策の強化について、WBGT値に基づく予防措置の義務化" },
   { id := 3,
     lawName := "特定化学物質障害予防規則等",
     title := "化学物質による労働災害防止のための新たな規制",
     stage := "enforcement_scheduled",
     promulgationDate := some "2024-02-24",
     enforcementDate := some "2026-04-01",
     description := "ラベル表示・SDS交付義務対象物質の追加（約700物質追加、合計約1,600物質）",
     highlights := ["2026年4月：さらに約850物質追加予定",
                    "SDS交付義務違反への罰則新設",
                    "化学物質管理者の選任義務"] }]

/-- `filteredRevisions` of `safety-law-tracker-fixed.jsx`: title or
description contains the search term, and the stage filter is `"all"` or
equal to the record's stage. -/
def filteredRevisions (searchTerm selectedStage : String) : List Revision :=
  sampleRevisions.filter (fun revision =>
    (includesList searchTerm.data revision.title.data ||
      includesList searchTerm.data revision.description.data) &&
    (selectedStage == "all" || revision.stage == selectedStage))

/-- The per-stage count rendered by `safety-law-tracker-fixed.jsx`
(line 223): it is computed over `sampleRevisions` — the whole snapshot —
even though `searchTerm` and `selectedStage` are in scope in the
component, so it ignores both. -/
def stageCountUI (searchTerm selectedStage : String) (stageId : String) : Nat :=
  (sampleRevisions.filter (fun r => r.stage == stageId)).length

/-- Modelled from the spec: `getStats()` is served by `api_server.py`,
which is not among the sources; per the spec it returns counts per stage
and per action over the current snapshot. -/
def getStats (snapshot : List Item) : (String → Nat) × (String → Nat) :=
  (fun st => snapshot.foldl (fun n r => if r.process == some st then n + 1 else n) 0,
   fun a => snapshot.foldl (fun n r => if r.action == some a then n + 1 else n) 0)

/-- The fixed ordered set of lifecycle stages of the data model. -/
inductive Stage
  | considering
  | public_comment
  | in_diet
  | promulgated
  | enforcement_planned
  | enforced
deriving DecidableEq

/-- The urgency tiers of the data model. -/
inductive ActionTier
  | WATCH
  | PREPARE
  | ACT_NOW
  | CLOSE
deriving DecidableEq

/-- Modelled from the spec: the Classifier's stage assignment lives in
the Python pipeline (scraper.py), which is not among the sources; per
the spec a record lacking enough information to distinguish defaults to
the most conservative (earliest) stage. -/
def classifyStage (info : Option Stage) : Stage :=
  info.getD Stage.considering

/-- Modelled from the spec: the Classifier's urgency assignment lives in
the Python pipeline (scraper.py), which is not among the sources; per
the spec, withdrawn records are `CLOSE`, pre-promulgation stages are
`WATCH`, and promulgated or later stages are `ACT_NOW` inside the
near-term enforcement window and `PREPARE` outside it. -/
def classifyAction (withdrawn : Bool) (st : Stage) (enforcementDate : Option Int)
    (now window : Int) : ActionTier :=
  if withdrawn then ActionTier.CLOSE
  else match st with
    | Stage.considering | Stage.public_comment | Stage.in_diet => ActionTier.WATCH
    | Stage.promulgated | Stage.enforcement_planned | Stage.enforced =>
      match enforcementDate with
      | some d => if d ≤ now + window then ActionTier.ACT_NOW else ActionTier.PREPARE
      | none => ActionTier.PREPARE

/-- A `WATCH` record last updated on day 80 (120 days before day 200). -/
def cexStaleA : Item := { action := some "WATCH", updated_at := some 80 }

/-- A `WATCH` record last updated on day 90 (110 days before day 200). -/
def cexStaleB : Item := { action := some "WATCH", updated_at := some 90 }

/-- A record whose only text fields are the title `"ab"` and the tag
`"cd"`; its searchable blob is `"ab cd"`. -/
def cexJoin : Item := { title := some "ab", tags := ["cd"] }

/-- A record with every field absent. -/
def cexDefaultItem : Item := {}

/-- A `PREPARE` record with no `updated_at`. -/
def wMissing : Item := { action := some "PREPARE" }

/-- A `PREPARE` record updated on day -1 (one day before day 0). -/
def wStale : Item := { action := some "PREPARE", updated_at := some (-1) }

/-- A record dated 7 days in the future of day 0. -/
def wFut : Item := { updated_at := some 7 }

/-- A record dated 7 days in the past of day 0. -/
def wPast : Item := { updated_at := some (-7) }

/-- A record dated 150 days after day 0. -/
def wOld1 : Item := { updated_at := some 150 }

/-- A record dated 130 days before day 0. -/
def wOld2 : Item := { updated_at := some (-130) }

theorem insertByScore_perm (now : Int) (x : Item) (l : List Item) :
    List.Perm (insertByScore now x l) (x :: l) := by
  induction l with
  | nil => simp [insertByScore]
  | cons y ys ih =>
    simp only [insertByScore]
    split
    · exact List.Perm.refl _
    · exact (ih.cons y).trans (List.Perm.swap x y ys)

theorem sortByScore_perm (now : Int) (l : List Item) :
    List.Perm (sortByScore now l) l := by
  induction l with
  | nil => exact List.Perm.refl _
  | cons x xs ih =>
    exact (insertByScore_perm now x (sortByScore now xs)).trans (ih.cons x)

theorem insertByScore_pairwise (now : Int) (x : Item) (l : List Item)
    (h : l.Pairwise (fun a b => scoreOf now b ≤ scoreOf now a)) :
    (insertByScore now x l).Pairwise (fun a b => scoreOf now b ≤ scoreOf now a) := by
  induction l with
  | nil => simp [insertByScore]
  | cons y ys ih =>
    rcases List.pairwise_cons.mp h with ⟨hy, hys⟩
    simp only [insertByScore]
    split
    · rename_i hxy
      refine List.pairwise_cons.mpr ⟨?_, h⟩
      intro z hz
      rcases List.mem_cons.mp hz with rfl | hz
      · exact hxy
      · exact le_trans (hy z hz) hxy
    · rename_i hxy
      refine List.pairwise_cons.mpr ⟨?_, ih hys⟩
      intro z hz
      rcases List.mem_cons.mp ((insertByScore_perm now x ys).mem_iff.mp hz) with rfl | hz
      · omega
      · exact hy z hz

theorem sortByScore_pairwise (now : Int) (l : List Item) :
    (sortByScore now l).Pairwise (fun a b => scoreOf now b ≤ scoreOf now a) := by
  induction l with
  | nil => simp [sortByScore]
  | cons x xs ih => exact insertByScore_pairwise now x (sortByScore now xs) ih

theorem filter_insertByScore (now : Int) (v : Nat) (x : Item) (l : List Item) :
    (insertByScore now x l).filter (fun r => scoreOf now r == v)
      = if scoreOf now x == v then x :: l.filter (fun r => scoreOf now r == v)
        else l.filter (fun r => scoreOf now r == v) := by
  induction l with
  | nil =>
    by_cases h : scoreOf now x = v <;> simp [insertByScore, h]
  | cons y ys ih =>
    simp only [insertByScore]
    split
    · rw [List.filter_cons]
    · rename_i hxy
      rw [List.filter_cons, List.filter_cons, ih]
      by_cases hv : scoreOf now x = v <;> by_cases hy : scoreOf now y = v
      · exact absurd (le_of_eq (hy.trans hv.symm)) hxy
      · simp [hv, hy]
      · simp [hv, hy]
      · simp [hv, hy]

theorem filter_sortByScore (now : Int) (v : Nat) (l : List Item) :
    (sortByScore now l).filter (fun r => scoreOf now r == v)
      = l.filter (fun r => scoreOf now r == v) := by
  induction l with
  | nil => rfl
  | cons x xs ih =>
    rw [sortByScore, filter_insertByScore, List.filter_cons, ih]

theorem includesList_nil_right (q : List Char) (h : q ≠ []) :
    includesList q [] = false := by
  cases q with
  | nil => exact absurd rfl h
  | cons c cs => rfl

theorem isPrefixOfList_append (q l t : List Char) (h : isPrefixOfList q l = true) :
    isPrefixOfList q (l ++ t) = true := by
  induction q generalizing l with
  | nil => rfl
  | cons a as ih =>
    cases l with
    | nil => simp [isPrefixOfList] at h
    | cons b bs =>
      simp only [isPrefixOfList, Bool.and_eq_true] at h
      simp only [List.cons_append, isPrefixOfList, Bool.and_eq_true]
      exact ⟨h.1, ih bs h.2⟩

theorem includesList_append_right (q l t : List Char) (hq : q ≠ [])
    (h : includesList q l = true) : includesList q (l ++ t) = true := by
  induction l with
  | nil =>
    rw [includesList_nil_right q hq] at h
    exact absurd h (by simp)
  | cons c cs ih =>
    simp only [includesList, Bool.or_eq_true] at h
    simp only [List.cons_append, includesList, Bool.or_eq_true]
    rcases h with h | h
    · exact Or.inl (isPrefixOfList_append q (c :: cs) t h)
    · exact Or.inr (ih h)

theorem includesList_append_left (q t s : List Char) (h : includesList q t = true) :
    includesList q (s ++ t) = true := by
  induction s with
  | nil => exact h
  | cons c cs ih =>
    simp only [List.cons_append, includesList, Bool.or_eq_true]
    exact Or.inr ih

theorem includesList_joinSpace (q : List Char) (L : List (List Char)) (f : List Char)
    (hf : f ∈ L) (hq : q ≠ []) (h : includesList q f = true) :
    includesList q (joinSpace L) = true := by
  induction L with
  | nil => simp at hf
  | cons x rest ih =>
    cases rest with
    | nil =>
      rw [List.mem_singleton] at hf
      subst hf
      exact h
    | cons y rs =>
      simp only [joinSpace]
      rcases List.mem_cons.mp hf with rfl | hmem
      · exact includesList_append_right q f (' ' :: joinSpace (y :: rs)) hq h
      · rw [List.append_cons]
        exact includesList_append_left q _ _ (ih hmem)

theorem includesList_ne_nil (q l : List Char) (hq : q ≠ [])
    (h : includesList q l = true) : l ≠ [] := by
  intro hl
  subst hl
  rw [includesList_nil_right q hq] at h
  exact absurd h (by simp)

theorem includes_blobOf_of_mem (q : List Char) (it : Item) (s : String)
    (hq : q ≠ []) (hs : s ∈ blobFields it) (h : includesList q s.data = true) :
    includesList q (blobOf it) = true :=
  includesList_joinSpace q ((blobFields it).map String.data) s.data
    (List.mem_map_of_mem String.data hs) hq h

theorem string_ne_empty_of_data (s : String) (h : s.data ≠ []) : s ≠ "" := by
  intro hs
  subst hs
  exact h rfl

theorem actScoreOf_bounds (it : Item) : 1 ≤ actScoreOf it ∧ actScoreOf it ≤ 4 := by
  unfold actScoreOf
  cases it.action <;> simp only [] <;> repeat' split
  all_goals omega

theorem cappedDays_le (now : Int) (it : Item) : cappedDays now it ≤ 100 := by
  unfold cappedDays
  omega

theorem recencyOf_le (now : Int) (it : Item) : recencyOf now it ≤ 100 := by
  unfold recencyOf
  omega

theorem score_ge_cases (now : Int) (a b : Item)
    (h : scoreOf now b ≤ scoreOf now a) :
    actScoreOf b < actScoreOf a ∨
      (actScoreOf a = actScoreOf b ∧ cappedDays now a ≤ cappedDays now b) := by
  have ha := actScoreOf_bounds a
  have hb := actScoreOf_bounds b
  have hca := cappedDays_le now a
  have hcb := cappedDays_le now b
  unfold scoreOf recencyOf at h
  omega

theorem passesFilter_iff (f : QueryFilter) (it : Item) :
    passesFilter f it = true ↔
      ((f.process = "all" ∨ it.process = some f.process) ∧
       (f.action = "all" ∨ it.action = some f.action) ∧
       (trimList f.q.data = [] ∨ includesList (trimList f.q.data) (blobOf it) = true)) := by
  simp [passesFilter, List.isEmpty_iff, and_assoc]

theorem passesFilter_default (it : Item) :
    passesFilter ⟨"", "all", "all"⟩ it = true := by
  simp [passesFilter, trimList]

theorem mem_query_iff (items : List Item) (f : QueryFilter) (now : Int) (it : Item) :
    it ∈ query items f now ↔ it ∈ items ∧ passesFilter f it = true := by
  rw [query, (sortByScore_perm now _).mem_iff, List.mem_filter]

theorem foldl_count_eq (p : Item → Bool) (l : List Item) (n : Nat) :
    l.foldl (fun n r => if p r then n + 1 else n) n = n + (l.filter p).length := by
  induction l generalizing n with
  | nil => simp
  | cons x xs ih =>
    rw [List.foldl_cons, List.filter_cons]
    by_cases hx : p x <;> simp [hx, ih] <;> omega

theorem mem_blobFields_of (it : Item) (s : String) (hne : s ≠ "")
    (h : it.title = some s ∨ it.law_family = some s ∨ s ∈ it.summary_3 ∨
      s ∈ it.target ∨ s ∈ it.tags ∨ it.topic = some s) :
    s ∈ blobFields it := by
  rw [blobFields, List.mem_filter]
  refine ⟨?_, by simpa using hne⟩
  rcases h with h | h | h | h | h | h <;>
    simp [List.mem_append, List.mem_filterMap, h]

/-- Claim C1: for every snapshot and every filter, `query` returns exactly
the records satisfying the logical AND of the three criteria, where a
filter value of `"all"` or an absent filter (empty search text) imposes no
constraint on that axis; the search criterion is containment of the
trimmed search text in the record's searchable blob. -/
theorem query_is_and_of_criteria (items : List Item) (f : QueryFilter) (now : Int) :
    List.Perm (query items f now) (items.filter (passesFilter f)) ∧
    (∀ it : Item, it ∈ query items f now ↔ it ∈ items ∧
      ((f.process = "all" ∨ it.process = some f.process) ∧
       (f.action = "all" ∨ it.action = some f.action) ∧
       (trimList f.q.data = [] ∨ includesList (trimList f.q.data) (blobOf it) = true))) := by
  refine ⟨sortByScore_perm now _, fun it => ?_⟩
  rw [mem_query_iff, passesFilter_iff]

/-- Claim C2 counterexample: two records of the same urgency tier whose
`updated_at` lie 120 and 110 days before the current date (both at or past
the 100-day recency saturation) keep their snapshot order, so the record
with the strictly more recent `updated_at` appears second, contradicting
the claim that among equal tiers the more recent record appears first. -/
theorem ranking_recency_tiebreak_cex :
    query [cexStaleA, cexStaleB] ⟨"", "all", "all"⟩ 200 = [cexStaleA, cexStaleB] ∧
    actScoreOf cexStaleA = actScoreOf cexStaleB ∧
    daysBetween 90 200 < daysBetween 80 200 ∧
    cexStaleA ≠ cexStaleB := by
  decide

/-- Claim C2 amended: for every pair of records in the query output, the
record with the more urgent action tier appears first, and among records
of equal urgency tier a record with the strictly smaller capped day
distance (`min 100` of the absolute day difference from `updatedAt` to
the current date, a missing `updatedAt` counting as the current date)
appears first; records whose capped distances are equal (in particular
any two at 100 or more days) are tied and keep their snapshot order. -/
theorem query_ranked_urgency_then_capped_recency
    (items : List Item) (f : QueryFilter) (now : Int) :
    (query items f now).Pairwise (fun a b =>
      actScoreOf b < actScoreOf a ∨
        (actScoreOf a = actScoreOf b ∧ cappedDays now a ≤ cappedDays now b)) :=
  List.Pairwise.imp (fun h => score_ge_cases now _ _ h) (sortByScore_pairwise now _)

/-- Claim C3 counterexample: the search text `"b c"` matches a record with
title `"ab"` and tags `["cd"]` — because the code joins the fields with
spaces into one blob `"ab cd"` — although it is a substring of no single
field, contradicting the claim that a record matches exactly when the
text occurs inside one of the listed fields. -/
theorem search_field_criterion_cex :
    passesFilter ⟨"b c", "all", "all"⟩ cexJoin = true ∧
    specFieldMatch ("b c") cexJoin = false := by
  decide

/-- Claim C3 amended: for every record and every non-empty, trimmed search
text, the record matches exactly when the text occurs as a substring of
the space-joined concatenation of its present text fields (title, topic,
law_family, summary entries, target entries and tags) — so a match may
span adjacent fields — and a substring occurrence inside any one of the
claimed fields (title, law name, a summary entry, a target entry or a
tag) still implies a match; case-sensitively in every case. -/
theorem search_blob_semantics (qd : List Char) (it : Item)
    (hq : trimList qd = qd) (hne : qd ≠ []) :
    (passesFilter ⟨String.mk qd, "all", "all"⟩ it = true ↔
      includesList qd (blobOf it) = true) ∧
    (specFieldMatch (String.mk qd) it = true →
      passesFilter ⟨String.mk qd, "all", "all"⟩ it = true) := by
  have key : ∀ s : String,
      (it.title = some s ∨ it.law_family = some s ∨ s ∈ it.summary_3 ∨
        s ∈ it.target ∨ s ∈ it.tags ∨ it.topic = some s) →
      includesList qd s.data = true → includesList qd (blobOf it) = true := by
    intro s hf hinc
    refine includes_blobOf_of_mem qd it s hne (mem_blobFields_of it s ?_ hf) hinc
    exact string_ne_empty_of_data s (includesList_ne_nil qd s.data hne hinc)
  constructor
  · rw [passesFilter_iff]
    simp [hq, hne]
  · intro hm
    rw [passesFilter_iff]
    refine ⟨Or.inl rfl, Or.inl rfl, Or.inr ?_⟩
    show includesList (trimList qd) (blobOf it) = true
    rw [hq]
    simp only [specFieldMatch, Bool.or_eq_true, List.any_eq_true] at hm
    rcases hm with ((((hm | hm) | hm) | hm) | hm)
    · cases ht : it.title with
      | none => simp [ht] at hm
      | some s =>
        simp only [ht] at hm
        exact key s (Or.inl ht) hm
    · cases hl : it.law_family with
      | none => simp [hl] at hm
      | some s =>
        simp only [hl] at hm
        exact key s (Or.inr (Or.inl hl)) hm
    · obtain ⟨s, hs, hinc⟩ := hm
      exact key s (Or.inr (Or.inr (Or.inl hs))) hinc
    · obtain ⟨s, hs, hinc⟩ := hm
      exact key s (Or.inr (Or.inr (Or.inr (Or.inl hs)))) hinc
    · obtain ⟨s, hs, hinc⟩ := hm
      exact key s (Or.inr (Or.inr (Or.inr (Or.inr (Or.inl hs))))) hinc

/-- Witness for the amended C3 theorem at the search text `"cd"` and the
record with title `"ab"` and tags `["cd"]`. -/
theorem search_blob_semantics_witness :
    (passesFilter ⟨String.mk ("cd").data, "all", "all"⟩ cexJoin = true ↔
      includesList ("cd").data (blobOf cexJoin) = true) ∧
    (specFieldMatch (String.mk ("cd").data) cexJoin = true →
      passesFilter ⟨String.mk ("cd").data, "all", "all"⟩ cexJoin = true) :=
  search_blob_semantics ("cd").data cexJoin (by decide) (by decide)

/-- Claim C4: the stage and action classification is total — the modelled
classifier always yields a stage in the fixed ordered six-element set and
an action in the four-tier set (never null) — and every record of the
embedded sample snapshot carries a stage belonging to the fixed ordered
stage table of the code. -/
theorem stage_action_always_populated :
    (∀ info : Option Stage, classifyStage info ∈
      [Stage.considering, Stage.public_comment, Stage.in_diet,
       Stage.promulgated, Stage.enforcement_planned, Stage.enforced]) ∧
    (∀ (withdrawn : Bool) (st : Stage) (enf : Option Int) (now window : Int),
      classifyAction withdrawn st enf now window ∈
        [ActionTier.WATCH, ActionTier.PREPARE, ActionTier.ACT_NOW, ActionTier.CLOSE]) ∧
    (∀ r ∈ sampleRevisions, r.stage ∈ revisionStages.map RevisionStage.id) := by
  refine ⟨fun info => ?_, fun w st enf now window => ?_, by decide⟩
  · cases classifyStage info <;> simp
  · cases classifyAction w st enf now window <;> simp

/-- Claim C5: the query is deterministic — two evaluations on the same
snapshot, filter and current date give the identical ordered sequence —
and stable: the records of any one ranking-score class appear in the
output exactly in their snapshot order, so ties have one fixed relative
order. -/
theorem query_deterministic_and_stable (items : List Item) (f : QueryFilter) (now : Int) :
    query items f now = query items f now ∧
    (∀ v : Nat, (query items f now).filter (fun r => scoreOf now r == v)
      = (items.filter (passesFilter f)).filter (fun r => scoreOf now r == v)) :=
  ⟨rfl, fun v => filter_sortByScore now v _⟩

/-- Claim C6: evaluating the query leaves the store unchanged — it is a
pure, read-only projection of the current snapshot. -/
theorem query_read_only (st : Store) (f : QueryFilter) (now : Int) :
    (queryStore st f now).2 = st ∧
    (queryStore st f now).2.snapshot = st.snapshot ∧
    (queryStore st f now).1 = query st.snapshot f now :=
  ⟨rfl, rfl, rfl⟩

/-- Claim C7: `getStats` reports for each stage and for each action the
number of records of the whole current snapshot carrying that value, and
the per-stage count the component renders is computed over the whole
sample snapshot, unaffected by the active search term or stage filter. -/
theorem getStats_whole_snapshot (snapshot : List Item) (st a : String)
    (s1 sel1 s2 sel2 sid : String) :
    (getStats snapshot).1 st = (snapshot.filter (fun r => r.process == some st)).length ∧
    (getStats snapshot).2 a = (snapshot.filter (fun r => r.action == some a)).length ∧
    stageCountUI s1 sel1 sid = stageCountUI s2 sel2 sid ∧
    stageCountUI s1 sel1 sid = (sampleRevisions.filter (fun r => r.stage == sid)).length := by
  refine ⟨?_, ?_, rfl, rfl⟩
  · show snapshot.foldl (fun n r => if r.process == some st then n + 1 else n) 0 = _
    rw [foldl_count_eq, Nat.zero_add]
  · show snapshot.foldl (fun n r => if r.action == some a then n + 1 else n) 0 = _
    rw [foldl_count_eq, Nat.zero_add]

/-- Claim C8: a record whose action field is absent is excluded by the
action filter `WATCH` (the filter compares the raw field), but is
included under the action filter `"all"` and is ranked with the `WATCH`
urgency score 2 (the default applies during ranking only). -/
theorem absent_action_filter_vs_ranking (it : Item) (items : List Item) (now : Int)
    (h : it.action = none) (hm : it ∈ items) :
    passesFilter ⟨"", "all", "WATCH"⟩ it = false ∧
    it ∈ query items ⟨"", "all", "all"⟩ now ∧
    actScoreOf it = 2 := by
  refine ⟨?_, (mem_query_iff items _ now it).mpr ⟨hm, passesFilter_default it⟩, ?_⟩
  · rw [Bool.eq_false_iff, Ne, passesFilter_iff]
    rintro ⟨-, hB, -⟩
    rcases hB with hB | hB
    · exact absurd hB (by decide)
    · rw [h] at hB
      exact Option.noConfusion hB
  · unfold actScoreOf
    rw [h]
    decide

/-- Witness for the C8 theorem at a record with every field absent. -/
theorem absent_action_filter_vs_ranking_witness :
    passesFilter ⟨"", "all", "WATCH"⟩ cexDefaultItem = false ∧
    cexDefaultItem ∈ query [cexDefaultItem] ⟨"", "all", "all"⟩ 0 ∧
    actScoreOf cexDefaultItem = 2 :=
  absent_action_filter_vs_ranking cexDefaultItem [cexDefaultItem] 0 rfl (by decide)

/-- Claim C9: a record with absent `updated_at` is treated as updated on
the current date, receives the maximal recency score 100, and appears in
the query output ahead of every record of the same urgency tier whose
`updated_at` is one or more days before the current date. -/
theorem missing_updated_at_sorts_first (a b : Item) (items : List Item)
    (f : QueryFilter) (now d : Int)
    (ha : a.updated_at = none) (hb : b.updated_at = some d) (hd : d + 1 ≤ now)
    (ht : actScoreOf a = actScoreOf b)
    (hma : a ∈ items) (hmb : b ∈ items)
    (hfa : passesFilter f a = true) (hfb : passesFilter f b = true) :
    recencyOf now a = 100 ∧ (∀ r : Item, recencyOf now r ≤ 100) ∧
    recencyOf now b < 100 ∧
    a ∈ query items f now ∧ b ∈ query items f now ∧
    ¬ List.Sublist [b, a] (query items f now) := by
  have hra : recencyOf now a = 100 := by
    simp [recencyOf, cappedDays, daysBetween, ha]
  have hrb : recencyOf now b < 100 := by
    have h1 : 1 ≤ (d - now).natAbs := by omega
    simp only [recencyOf, cappedDays, daysBetween, hb, Option.getD_some]
    omega
  refine ⟨hra, fun r => recencyOf_le now r, hrb,
    (mem_query_iff items f now a).mpr ⟨hma, hfa⟩,
    (mem_query_iff items f now b).mpr ⟨hmb, hfb⟩, ?_⟩
  intro hsub
  have hp := List.Pairwise.sublist hsub (sortByScore_pairwise now (items.filter (passesFilter f)))
  have hba : scoreOf now a ≤ scoreOf now b := (List.pairwise_cons.mp hp).1 a (by simp)
  have : scoreOf now b < scoreOf now a := by
    simp only [scoreOf]
    omega
  omega

/-- Witness for the C9 theorem: a record with no `updated_at` and one
updated the day before, both of tier `PREPARE`, with the stale record
first in the snapshot. -/
theorem missing_updated_at_sorts_first_witness :
    recencyOf 0 wMissing = 100 ∧ (∀ r : Item, recencyOf 0 r ≤ 100) ∧
    recencyOf 0 wStale < 100 ∧
    wMissing ∈ query [wStale, wMissing] ⟨"", "all", "all"⟩ 0 ∧
    wStale ∈ query [wStale, wMissing] ⟨"", "all", "all"⟩ 0 ∧
    ¬ List.Sublist [wStale, wMissing] (query [wStale, wMissing] ⟨"", "all", "all"⟩ 0) :=
  missing_updated_at_sorts_first wMissing wStale [wStale, wMissing] ⟨"", "all", "all"⟩ 0 (-1)
    rfl rfl (by omega) (by decide) (by decide) (by decide) (by decide) (by decide)

/-- Claim C10: the recency component depends only on the absolute
whole-day difference between `updated_at` and the current date, saturated
at 100 days: a record dated `k` days in the future scores the same as one
updated `k` days in the past, and two records of the same urgency tier
whose dates each differ from the current date by 100 or more days receive
equal recency (zero) and equal total scores. -/
theorem recency_absolute_and_saturating (now k d1 d2 : Int) (a b c e : Item)
    (hk1 : a.updated_at = some (now + k)) (hk2 : b.updated_at = some (now - k))
    (hc : c.updated_at = some d1) (he : e.updated_at = some d2)
    (h1 : 100 ≤ (d1 - now).natAbs) (h2 : 100 ≤ (d2 - now).natAbs)
    (ht : actScoreOf c = actScoreOf e) (htab : actScoreOf a = actScoreOf b) :
    recencyOf now a = recencyOf now b ∧ scoreOf now a = scoreOf now b ∧
    recencyOf now c = 0 ∧ recencyOf now e = 0 ∧
    scoreOf now c = scoreOf now e := by
  have hab : recencyOf now a = recencyOf now b := by
    simp only [recencyOf, cappedDays, daysBetween, hk1, hk2, Option.getD_some]
    have e1 : now + k - now = k := by ring
    have e2 : now - k - now = -k := by ring
    rw [e1, e2, Int.natAbs_neg]
  have hc0 : recencyOf now c = 0 := by
    simp only [recencyOf, cappedDays, daysBetween, hc, Option.getD_some]
    omega
  have he0 : recencyOf now e = 0 := by
    simp only [recencyOf, cappedDays, daysBetween, he, Option.getD_some]
    omega
  exact ⟨hab, by simp [scoreOf, hab, htab], hc0, he0, by simp [scoreOf, hc0, he0, ht]⟩

/-- Witness for the C10 theorem: dates 7 days in the future and 7 days in
the past of day 0, and dates 150 and 130 days away from it. -/
theorem recency_absolute_and_saturating_witness :
    recencyOf 0 wFut = recencyOf 0 wPast ∧ scoreOf 0 wFut = scoreOf 0 wPast ∧
    recencyOf 0 wOld1 = 0 ∧ recencyOf 0 wOld2 = 0 ∧
    scoreOf 0 wOld1 = scoreOf 0 wOld2 :=
  recency_absolute_and_saturating 0 7 150 (-130) wFut wPast wOld1 wOld2
    (by decide) (by decide) (by decide) (by decide) (by decide) (by decide)
    (by decide) (by decide)
